import Mathlib

/-!
Verification of the BVH skeleton core (`BeeVeeH/bvh_helper.py`).

The Python module is embedded shallowly:

* floats are modelled as real numbers `ℝ`;
* `numpy` 4x4 arrays are `Matrix (Fin 4) (Fin 4) ℝ`, `np.dot` is matrix
  multiplication / `Matrix.mulVec`, `np.identity(4)` is `1`;
* `BVHChannel` and `BVHNode` are records; the node's `children` list makes
  `BVHNode` a nested inductive type;
* exceptions (`IndexError` from `list.pop(0)` on an empty list, the
  `AssertionError` of `distance`, the `KeyError` of an unrecognized channel
  name) are modelled with `Except BVHError`;
* in-place mutation of the tree is modelled by state passing: a method that
  mutates its receiver returns the updated tree; `copy.deepcopy` is value
  copying, which is implicit for immutable Lean values.  Where a claim is
  about the state of a caller-supplied object after a call, a `_call`
  variant returns that state explicitly.
-/

/-- 4x4 homogeneous transform, the shape of every matrix in the module. -/
abbrev Mat4 := Matrix (Fin 4) (Fin 4) ℝ

/-- Python's `math.radians(x)`: degrees to radians. -/
noncomputable def radians (x : ℝ) : ℝ := x * Real.pi / 180

/-- `BVHChannel` (bvh_helper.py:8-47): a named scalar motion parameter.
`__init__` stores the channel name and initializes `value` to `0.0`;
`set_value` overwrites `value`. -/
structure BVHChannel where
  name : String
  value : ℝ

/-- `BVHNode` (bvh_helper.py:50-140).  Field order follows `__init__`:
`key`, `name`, `offsets` (the x, y, z rest-pose offset), the `channels`
built from the channel names, `children`, `weight` (used only by
`distance`), and the derived fields `coordinates` and `localTrans` that
`apply_transformation` recomputes.  The source initializes the two derived
fields to empty lists; the model gives them honest types and arbitrary
initial content, since no claim observes them before an FK pass. -/
inductive BVHNode : Type where
  | mk (key : String) (name : String) (offsets : Fin 3 → ℝ)
       (channels : List BVHChannel) (children : List BVHNode)
       (weight : ℝ) (coordinates : Fin 3 → ℝ) (localTrans : Mat4) : BVHNode

/-- Exceptions the module can raise, named as in the spec (§7):
`underflow` is the `IndexError` of `frame_data_array.pop(0)` on an empty
list, `mismatch` is the `AssertionError` of `distance`, `unknownChannel`
is the `KeyError` of `ChannelTransformMatrixMap[name]`. -/
inductive BVHError : Type where
  | underflow
  | mismatch
  | unknownChannel (name : String)
deriving DecidableEq

def BVHNode.key : BVHNode → String
  | .mk k _ _ _ _ _ _ _ => k

def BVHNode.name : BVHNode → String
  | .mk _ n _ _ _ _ _ _ => n

def BVHNode.offsets : BVHNode → Fin 3 → ℝ
  | .mk _ _ o _ _ _ _ _ => o

def BVHNode.channels : BVHNode → List BVHChannel
  | .mk _ _ _ chs _ _ _ _ => chs

def BVHNode.children : BVHNode → List BVHNode
  | .mk _ _ _ _ cs _ _ _ => cs

def BVHNode.weight : BVHNode → ℝ
  | .mk _ _ _ _ _ w _ _ => w

def BVHNode.coordinates : BVHNode → Fin 3 → ℝ
  | .mk _ _ _ _ _ _ co _ => co

def BVHNode.localTrans : BVHNode → Mat4
  | .mk _ _ _ _ _ _ _ lt => lt

/-- `BVHChannel.ChannelTransformMatrixMap` (bvh_helper.py:9-34): the
dictionary from channel name to matrix-building function; a name outside
the six keys is `none` (a lookup raises `KeyError`). -/
noncomputable def ChannelTransformMatrixMap : String → Option (ℝ → Mat4)
  | "Xposition" => some fun x =>
      !![1, 0, 0, x;
         0, 1, 0, 0;
         0, 0, 1, 0;
         0, 0, 0, 1]
  | "Yposition" => some fun x =>
      !![1, 0, 0, 0;
         0, 1, 0, x;
         0, 0, 1, 0;
         0, 0, 0, 1]
  | "Zposition" => some fun x =>
      !![1, 0, 0, 0;
         0, 1, 0, 0;
         0, 0, 1, x;
         0, 0, 0, 1]
  | "Xrotation" => some fun x =>
      !![1, 0, 0, 0;
         0, Real.cos (radians x), -Real.sin (radians x), 0;
         0, Real.sin (radians x), Real.cos (radians x), 0;
         0, 0, 0, 1]
  | "Yrotation" => some fun x =>
      !![Real.cos (radians x), 0, Real.sin (radians x), 0;
         0, 1, 0, 0;
         -Real.sin (radians x), 0, Real.cos (radians x), 0;
         0, 0, 0, 1]
  | "Zrotation" => some fun x =>
      !![Real.cos (radians x), -Real.sin (radians x), 0, 0;
         Real.sin (radians x), Real.cos (radians x), 0, 0;
         0, 0, 1, 0;
         0, 0, 0, 1]
  | _ => none

/-- `BVHChannel.matrix` (bvh_helper.py:43-44):
`ChannelTransformMatrixMap[self.name](self.value)`. -/
noncomputable def BVHChannel.matrix (c : BVHChannel) : Except BVHError Mat4 :=
  match ChannelTransformMatrixMap c.name with
  | some f => .ok (f c.value)
  | none => .error (.unknownChannel c.name)

/-- The channel-assignment loop of `__load_frame` (bvh_helper.py:83-84):
`for channel in self.channels: channel.set_value(frame_data_array.pop(0))`.
Returns the updated channels and the remaining array; `pop(0)` on an empty
list raises (`underflow`). -/
def loadChannels : List BVHChannel → List ℝ → Except BVHError (List BVHChannel × List ℝ)
  | [], vs => .ok ([], vs)
  | _ :: _, [] => .error .underflow
  | c :: cs, v :: vs => do
    let (cs', vs') ← loadChannels cs vs
    .ok ({ c with value := v } :: cs', vs')

mutual
/-- `BVHNode.__load_frame` (bvh_helper.py:78-86): consumes values from the
front of the array for this node's channels, then recurses into the
children in order.  The returned list is the state of the (mutated) array
after the call. -/
def BVHNode.loadAux : BVHNode → List ℝ → Except BVHError (BVHNode × List ℝ)
  | .mk k n o chs children w co lt, vs => do
    let (chs', vs') ← loadChannels chs vs
    let (children', vs'') ← loadChildrenAux children vs'
    .ok (.mk k n o chs' children' w co lt, vs'')

/-- The `for child in self.children: child.__load_frame(...)` loop of
`__load_frame` (bvh_helper.py:85-86). -/
def loadChildrenAux : List BVHNode → List ℝ → Except BVHError (List BVHNode × List ℝ)
  | [], vs => .ok ([], vs)
  | c :: cs, vs => do
    let (c', vs') ← c.loadAux vs
    let (cs', vs'') ← loadChildrenAux cs vs'
    .ok (c' :: cs', vs'')
end

/-- `BVHNode.load_frame` (bvh_helper.py:88-90): copies the array
(`copy.copy`) and runs `__load_frame` on the copy; the drained copy is
discarded.  Returns the updated tree. -/
def BVHNode.load_frame (self : BVHNode) (vs : List ℝ) : Except BVHError BVHNode :=
  (self.loadAux vs).map Prod.fst

/-- The caller-visible effect of a `load_frame` call: the call's outcome
together with the state of the caller's array object after the call.
`load_frame` mutates only its private `copy.copy` of the array
(bvh_helper.py:89) and the drained copy (the second component of
`loadAux`) is local to the call, so the caller's array is returned as it
was passed, whether or not the call raises; had the source run
`__load_frame` on the argument directly, the second component would
instead be the drained `loadAux` remainder. -/
def BVHNode.load_frame_call (self : BVHNode) (vs : List ℝ) :
    Except BVHError BVHNode × List ℝ :=
  ((self.loadAux vs).map Prod.fst, vs)

/-- The `for channel in self.channels: localTrans = np.dot(localTrans,
channel.matrix())` loop of `apply_transformation` (bvh_helper.py:94-96),
started at `np.identity(4)`. -/
noncomputable def channelProduct : Mat4 → List BVHChannel → Except BVHError Mat4
  | acc, [] => .ok acc
  | acc, c :: cs => do channelProduct (acc * (← c.matrix)) cs

/-- The homogeneous column vector `np.append(np.array([offsets]).T, [[1]])`
of bvh_helper.py:100-101. -/
def homog (o : Fin 3 → ℝ) : Fin 4 → ℝ := ![o 0, o 1, o 2, 1]

mutual
/-- `BVHNode.apply_transformation` (bvh_helper.py:92-104): recomputes
`localTrans` as the left-to-right product of the channel matrices, forms
`tran_matrix = parent_tran_matrix · localTrans`, stores the first three
rows of `tran_matrix · [offsets, 1]^T` in `coordinates`, and recurses into
the children with `tran_matrix`. -/
noncomputable def BVHNode.apply_transformation : BVHNode → Mat4 → Except BVHError BVHNode
  | .mk k n o chs children w _ _, p => do
    let lt ← channelProduct 1 chs
    let total := p * lt
    let children' ← applyChildrenAux children total
    .ok (.mk k n o chs children' w (fun i : Fin 3 => total.mulVec (homog o) i.castSucc) lt)

/-- The `for child in self.children: child.apply_transformation(tran_matrix)`
loop of bvh_helper.py:103-104. -/
noncomputable def applyChildrenAux : List BVHNode → Mat4 → Except BVHError (List BVHNode)
  | [], _ => .ok []
  | c :: cs, p => do
    let c' ← c.apply_transformation p
    let cs' ← applyChildrenAux cs p
    .ok (c' :: cs')
end

/-- `np.linalg.norm` of the difference of two 3-vectors: the Euclidean
norm used at bvh_helper.py:128. -/
noncomputable def norm3 (v : Fin 3 → ℝ) : ℝ :=
  Real.sqrt (v 0 ^ 2 + v 1 ^ 2 + v 2 ^ 2)

mutual
/-- `BVHNode.distance` (bvh_helper.py:126-131): asserts equal names and
weights (else `mismatch`), starts from
`norm(a.coordinates - b.coordinates) * a.weight`, and accumulates the
distance of each pair of `zip(node_a.children, node_b.children)`. -/
noncomputable def BVHNode.distance : BVHNode → BVHNode → Except BVHError ℝ
  | .mk ka na oa chsa childrena wa coa lta, .mk kb nb ob chsb childrenb wb cob ltb =>
    if na = nb ∧ wa = wb then
      distanceChildren (norm3 (fun i => coa i - cob i) * wa) childrena childrenb
    else .error .mismatch

/-- The `for child_a, child_b in zip(...)` loop of bvh_helper.py:129-130;
Python's `zip` stops at the shorter list. -/
noncomputable def distanceChildren : ℝ → List BVHNode → List BVHNode → Except BVHError ℝ
  | acc, [], _ => .ok acc
  | acc, _, [] => .ok acc
  | acc, ca :: cas, cb :: cbs => do
    let d ← ca.distance cb
    distanceChildren (acc + d) cas cbs
end

/-- `BVHNode.frame_distance` (bvh_helper.py:133-140): deep-copies the
receiver twice, loads one frame into each copy, applies forward kinematics
with the default identity parent transform, and returns the distance of
the two roots.  Deep copies are value copies in the embedding. -/
noncomputable def BVHNode.frame_distance (self : BVHNode) (frame_a frame_b : List ℝ) :
    Except BVHError ℝ := do
  let root_a ← self.load_frame frame_a
  let root_a ← root_a.apply_transformation 1
  let root_b ← self.load_frame frame_b
  let root_b ← root_b.apply_transformation 1
  root_a.distance root_b

/-- The caller-visible effect of a `frame_distance` call: the result
together with the state of the receiver after the call.  Every mutating
call in the body (`load_frame`, `apply_transformation`) acts on one of the
two `copy.deepcopy` trees `root_a`/`root_b` (bvh_helper.py:134-139), never
on `self`, so the receiver's state after the call is the tree that was
passed in. -/
noncomputable def BVHNode.frame_distance_call (self : BVHNode) (frame_a frame_b : List ℝ) :
    Except BVHError ℝ × BVHNode :=
  (self.frame_distance frame_a frame_b, self)

mutual
/-- Total number of channels in the tree, i.e. how many values a frame
must provide for `load_frame`. -/
def BVHNode.channelCount : BVHNode → Nat
  | .mk _ _ _ chs children _ _ _ => chs.length + channelCountList children

def channelCountList : List BVHNode → Nat
  | [] => 0
  | c :: cs => c.channelCount + channelCountList cs
end

mutual
/-- The tree's channel values flattened in depth-first,
parent-before-children, declared order — the order in which `load_frame`
consumes a frame. -/
def BVHNode.flattenValues : BVHNode → List ℝ
  | .mk _ _ _ chs children _ _ _ => chs.map BVHChannel.value ++ flattenValuesList children

def flattenValuesList : List BVHNode → List ℝ
  | [] => []
  | c :: cs => c.flattenValues ++ flattenValuesList cs
end

mutual
/-- The tree with every channel value reset to `0`: the projection that
forgets exactly what `load_frame` writes, keeping structure, names,
offsets, weights and the derived FK fields. -/
def BVHNode.eraseValues : BVHNode → BVHNode
  | .mk k n o chs children w co lt =>
    .mk k n o (chs.map fun c => { c with value := 0 }) (eraseValuesList children) w co lt

def eraseValuesList : List BVHNode → List BVHNode
  | [] => []
  | c :: cs => c.eraseValues :: eraseValuesList cs
end

/-- The first channel name of the list that is not a key of
`ChannelTransformMatrixMap`, if any. -/
noncomputable def firstBadChannel (cs : List BVHChannel) : Option String :=
  match cs with
  | [] => none
  | c :: cs =>
    match ChannelTransformMatrixMap c.name with
    | some _ => firstBadChannel cs
    | none => some c.name

mutual
/-- The first unrecognized channel name in depth-first order, if any: the
channel at which `apply_transformation` would raise `KeyError`. -/
noncomputable def BVHNode.firstBad : BVHNode → Option String
  | .mk _ _ _ chs children _ _ _ =>
    match firstBadChannel chs with
    | some s => some s
    | none => firstBadList children

noncomputable def firstBadList : List BVHNode → Option String
  | [] => none
  | c :: cs =>
    match c.firstBad with
    | some s => some s
    | none => firstBadList cs
end

/-- Modelled from the spec (§3 table): homogeneous translation by `d`
along the X axis. -/
noncomputable def specTranslateX (d : ℝ) : Mat4 :=
  !![1, 0, 0, d;
     0, 1, 0, 0;
     0, 0, 1, 0;
     0, 0, 0, 1]

/-- Modelled from the spec (§3 table): homogeneous translation by `d`
along the Y axis. -/
noncomputable def specTranslateY (d : ℝ) : Mat4 :=
  !![1, 0, 0, 0;
     0, 1, 0, d;
     0, 0, 1, 0;
     0, 0, 0, 1]

/-- Modelled from the spec (§3 table): homogeneous translation by `d`
along the Z axis. -/
noncomputable def specTranslateZ (d : ℝ) : Mat4 :=
  !![1, 0, 0, 0;
     0, 1, 0, 0;
     0, 0, 1, d;
     0, 0, 0, 1]

/-- Modelled from the spec (§3 table): right-handed rotation by `deg`
degrees (converted to radians) about the X axis, as a homogeneous 4x4
matrix. -/
noncomputable def specRotateX (deg : ℝ) : Mat4 :=
  !![1, 0, 0, 0;
     0, Real.cos (radians deg), -Real.sin (radians deg), 0;
     0, Real.sin (radians deg), Real.cos (radians deg), 0;
     0, 0, 0, 1]

/-- Modelled from the spec (§3 table): right-handed rotation by `deg`
degrees (converted to radians) about the Y axis, as a homogeneous 4x4
matrix. -/
noncomputable def specRotateY (deg : ℝ) : Mat4 :=
  !![Real.cos (radians deg), 0, Real.sin (radians deg), 0;
     0, 1, 0, 0;
     -Real.sin (radians deg), 0, Real.cos (radians deg), 0;
     0, 0, 0, 1]

/-- Modelled from the spec (§3 table): right-handed rotation by `deg`
degrees (converted to radians) about the Z axis, as a homogeneous 4x4
matrix. -/
noncomputable def specRotateZ (deg : ℝ) : Mat4 :=
  !![Real.cos (radians deg), -Real.sin (radians deg), 0, 0;
     Real.sin (radians deg), Real.cos (radians deg), 0, 0;
     0, 0, 1, 0;
     0, 0, 0, 1]

@[simp] theorem ok_bind {ε α β : Type} (a : α) (f : α → Except ε β) :
    (Except.ok a >>= f) = f a := rfl

@[simp] theorem error_bind {ε α β : Type} (e : ε) (f : α → Except ε β) :
    ((Except.error e : Except ε α) >>= f) = Except.error e := rfl

@[simp] theorem map_ok {ε α β : Type} (g : α → β) (a : α) :
    (Except.ok a : Except ε α).map g = Except.ok (g a) := rfl

@[simp] theorem map_error {ε α β : Type} (g : α → β) (e : ε) :
    (Except.error e : Except ε α).map g = Except.error e := rfl

@[simp] theorem BVHNode.channels_mk (k n o chs children w co lt) :
    (BVHNode.mk k n o chs children w co lt).channels = chs := rfl

@[simp] theorem BVHNode.children_mk (k n o chs children w co lt) :
    (BVHNode.mk k n o chs children w co lt).children = children := rfl

@[simp] theorem BVHNode.name_mk (k n o chs children w co lt) :
    (BVHNode.mk k n o chs children w co lt).name = n := rfl

@[simp] theorem BVHNode.weight_mk (k n o chs children w co lt) :
    (BVHNode.mk k n o chs children w co lt).weight = w := rfl

@[simp] theorem BVHNode.coordinates_mk (k n o chs children w co lt) :
    (BVHNode.mk k n o chs children w co lt).coordinates = co := rfl

@[simp] theorem BVHNode.localTrans_mk (k n o chs children w co lt) :
    (BVHNode.mk k n o chs children w co lt).localTrans = lt := rfl

@[simp] theorem BVHNode.offsets_mk (k n o chs children w co lt) :
    (BVHNode.mk k n o chs children w co lt).offsets = o := rfl

theorem loadChannels_ok (cs : List BVHChannel) (vs : List ℝ) (h : cs.length ≤ vs.length) :
    ∃ cs', loadChannels cs vs = .ok (cs', vs.drop cs.length) ∧
      cs'.map BVHChannel.value = vs.take cs.length ∧
      cs'.map BVHChannel.name = cs.map BVHChannel.name := by
  induction cs generalizing vs with
  | nil => exact ⟨[], rfl, rfl, rfl⟩
  | cons c cs ih =>
    cases vs with
    | nil => simp at h
    | cons v vs =>
      obtain ⟨cs', hrun, hval, hname⟩ := ih vs (by simpa using h)
      refine ⟨{ c with value := v } :: cs', ?_, ?_, ?_⟩
      · simp [loadChannels, hrun]
      · simp [hval]
      · simp [hname]

theorem loadChannels_underflow (cs : List BVHChannel) (vs : List ℝ)
    (h : vs.length < cs.length) :
    loadChannels cs vs = .error .underflow := by
  induction cs generalizing vs with
  | nil => simp at h
  | cons c cs ih =>
    cases vs with
    | nil => rfl
    | cons v vs =>
      have := ih vs (by simpa using h)
      simp [loadChannels, this]

mutual
theorem BVHNode.loadAux_ok : ∀ (t : BVHNode) (vs : List ℝ),
    t.channelCount ≤ vs.length →
    ∃ t', t.loadAux vs = .ok (t', vs.drop t.channelCount) ∧
      t'.flattenValues = vs.take t.channelCount ∧
      t'.eraseValues = t.eraseValues
  | .mk k n o chs children w co lt, vs => by
    intro h
    rw [BVHNode.channelCount] at h
    have h1 : chs.length ≤ vs.length := le_trans (Nat.le_add_right _ _) h
    obtain ⟨cs', hrun, hval, hname⟩ := loadChannels_ok chs vs h1
    have h2 : channelCountList children ≤ (vs.drop chs.length).length := by
      rw [List.length_drop]
      omega
    obtain ⟨children', hrun2, hval2, herase2⟩ :=
      loadChildrenAux_ok children (vs.drop chs.length) h2
    refine ⟨.mk k n o cs' children' w co lt, ?_, ?_, ?_⟩
    · rw [BVHNode.loadAux, BVHNode.channelCount]
      simp only [hrun, hrun2, ok_bind, List.drop_drop]
    · rw [BVHNode.flattenValues, BVHNode.channelCount, List.take_add, hval2]
      simp [hval]
    · rw [BVHNode.eraseValues, BVHNode.eraseValues, herase2]
      have : cs'.map (fun c => { c with value := 0 : BVHChannel }) =
          chs.map (fun c => { c with value := 0 : BVHChannel }) := by
        have hc : ∀ ds : List BVHChannel,
            ds.map (fun c => { c with value := 0 : BVHChannel }) =
            (ds.map BVHChannel.name).map (fun s => BVHChannel.mk s 0) := by
          intro ds
          rw [List.map_map]
          rfl
        rw [hc, hc, hname]
      rw [this]

theorem loadChildrenAux_ok : ∀ (cs : List BVHNode) (vs : List ℝ),
    channelCountList cs ≤ vs.length →
    ∃ cs', loadChildrenAux cs vs = .ok (cs', vs.drop (channelCountList cs)) ∧
      flattenValuesList cs' = vs.take (channelCountList cs) ∧
      eraseValuesList cs' = eraseValuesList cs
  | [], vs => by
    intro _
    exact ⟨[], rfl, rfl, rfl⟩
  | c :: cs, vs => by
    intro h
    rw [channelCountList] at h
    have h1 : c.channelCount ≤ vs.length := le_trans (Nat.le_add_right _ _) h
    obtain ⟨c', hrun, hval, herase⟩ := c.loadAux_ok vs h1
    have h2 : channelCountList cs ≤ (vs.drop c.channelCount).length := by
      rw [List.length_drop]
      omega
    obtain ⟨cs', hrun2, hval2, herase2⟩ :=
      loadChildrenAux_ok cs (vs.drop c.channelCount) h2
    refine ⟨c' :: cs', ?_, ?_, ?_⟩
    · rw [loadChildrenAux, channelCountList]
      simp only [hrun, hrun2, ok_bind, List.drop_drop]
    · rw [flattenValuesList, channelCountList, List.take_add, hval, hval2]
    · rw [eraseValuesList, eraseValuesList, herase, herase2]
end

mutual
theorem BVHNode.loadAux_underflow : ∀ (t : BVHNode) (vs : List ℝ),
    vs.length < t.channelCount → t.loadAux vs = .error .underflow
  | .mk k n o chs children w co lt, vs => by
    intro h
    rw [BVHNode.channelCount] at h
    rw [BVHNode.loadAux]
    by_cases h1 : vs.length < chs.length
    · rw [loadChannels_underflow chs vs h1]
      rfl
    · push_neg at h1
      obtain ⟨cs', hrun, _, _⟩ := loadChannels_ok chs vs h1
      rw [hrun]
      simp only [ok_bind]
      have h2 : (vs.drop chs.length).length < channelCountList children := by
        rw [List.length_drop]
        omega
      rw [loadChildrenAux_underflow children _ h2]
      rfl

theorem loadChildrenAux_underflow : ∀ (cs : List BVHNode) (vs : List ℝ),
    vs.length < channelCountList cs → loadChildrenAux cs vs = .error .underflow
  | [], vs => by
    intro h
    rw [channelCountList] at h
    omega
  | c :: cs, vs => by
    intro h
    rw [channelCountList] at h
    rw [loadChildrenAux]
    by_cases h1 : vs.length < c.channelCount
    · rw [c.loadAux_underflow vs h1]
      rfl
    · push_neg at h1
      obtain ⟨c', hrun, _, _⟩ := c.loadAux_ok vs h1
      rw [hrun]
      simp only [ok_bind]
      have h2 : (vs.drop c.channelCount).length < channelCountList cs := by
        rw [List.length_drop]
        omega
      rw [loadChildrenAux_underflow cs _ h2]
      rfl
end

theorem loadChannels_append (cs : List BVHChannel) (vs ws : List ℝ)
    (h : cs.length ≤ vs.length) :
    loadChannels cs (vs ++ ws) = (loadChannels cs vs).map (fun p => (p.1, p.2 ++ ws)) := by
  induction cs generalizing vs with
  | nil => rfl
  | cons c cs ih =>
    cases vs with
    | nil => simp at h
    | cons v vs =>
      have := ih vs (by simpa using h)
      obtain ⟨cs', hrun, _, _⟩ := loadChannels_ok cs vs (by simpa using h)
      rw [List.cons_append, loadChannels, loadChannels, this, hrun]
      rfl

mutual
theorem BVHNode.loadAux_append : ∀ (t : BVHNode) (vs ws : List ℝ),
    t.channelCount ≤ vs.length →
    t.loadAux (vs ++ ws) = (t.loadAux vs).map (fun p => (p.1, p.2 ++ ws))
  | .mk k n o chs children w co lt, vs, ws => by
    intro h
    rw [BVHNode.channelCount] at h
    rw [BVHNode.loadAux, BVHNode.loadAux]
    have h1 : chs.length ≤ vs.length := by omega
    obtain ⟨cs', hrun, _, _⟩ := loadChannels_ok chs vs h1
    rw [loadChannels_append chs vs ws h1, hrun]
    simp only [map_ok, ok_bind]
    have h2 : channelCountList children ≤ (vs.drop chs.length).length := by
      rw [List.length_drop]
      omega
    obtain ⟨children', hrun2, _, _⟩ := loadChildrenAux_ok children _ h2
    rw [loadChildrenAux_append children _ ws h2, hrun2]
    rfl

theorem loadChildrenAux_append : ∀ (cs : List BVHNode) (vs ws : List ℝ),
    channelCountList cs ≤ vs.length →
    loadChildrenAux cs (vs ++ ws) = (loadChildrenAux cs vs).map (fun p => (p.1, p.2 ++ ws))
  | [], vs, ws => by
    intro _
    rfl
  | c :: cs, vs, ws => by
    intro h
    rw [channelCountList] at h
    rw [loadChildrenAux, loadChildrenAux]
    have h1 : c.channelCount ≤ vs.length := by omega
    obtain ⟨c', hrun, _, _⟩ := c.loadAux_ok vs h1
    rw [c.loadAux_append vs ws h1, hrun]
    simp only [map_ok, ok_bind]
    have h2 : channelCountList cs ≤ (vs.drop c.channelCount).length := by
      rw [List.length_drop]
      omega
    obtain ⟨cs', hrun2, _, _⟩ := loadChildrenAux_ok cs _ h2
    rw [loadChildrenAux_append cs _ ws h2, hrun2]
    rfl
end

mutual
theorem BVHNode.channelCount_erase : ∀ t : BVHNode,
    t.eraseValues.channelCount = t.channelCount
  | .mk k n o chs children w co lt => by
    rw [BVHNode.eraseValues, BVHNode.channelCount, BVHNode.channelCount,
      channelCountList_erase children]
    simp

theorem channelCountList_erase : ∀ cs : List BVHNode,
    channelCountList (eraseValuesList cs) = channelCountList cs
  | [] => rfl
  | c :: cs => by
    rw [eraseValuesList, channelCountList, channelCountList,
      c.channelCount_erase, channelCountList_erase cs]
end

/-- A concrete two-joint skeleton for witnesses: an end-effector child with
one `Zrotation` channel. -/
def sampleChild : BVHNode :=
  .mk "JOINT" "child" ![0, 1, 0] [⟨"Zrotation", 0⟩] [] 1 ![0, 0, 0] 1

/-- A concrete two-joint skeleton for witnesses: a root with `Xposition`
and `Yposition` channels and `sampleChild` below it; three channels in
total. -/
def sampleRoot : BVHNode :=
  .mk "ROOT" "root" ![0, 0, 0] [⟨"Xposition", 0⟩, ⟨"Yposition", 0⟩] [sampleChild] 1 ![0, 0, 0] 1

/-- `sampleRoot` after loading the frame `[1, 2, 3]`. -/
def sampleRootLoaded : BVHNode :=
  .mk "ROOT" "root" ![0, 0, 0] [⟨"Xposition", 1⟩, ⟨"Yposition", 2⟩]
    [.mk "JOINT" "child" ![0, 1, 0] [⟨"Zrotation", 3⟩] [] 1 ![0, 0, 0] 1] 1 ![0, 0, 0] 1

/-- C4: for every tree and every input holding at least the tree's total
channel count of values, `load_frame` succeeds; values are consumed in
depth-first parent-before-children order — `__load_frame` consumes exactly
the first `channelCount` values and leaves the rest, the loaded tree's
channel values flattened in that traversal order (each node's channels in
declared order before its children in declared order) are exactly the
consumed prefix, and the tree is otherwise unchanged (`eraseValues`, the
projection forgetting only channel values, is preserved). -/
theorem load_frame_dfs_assignment (t : BVHNode) (vs : List ℝ)
    (h : t.channelCount ≤ vs.length) :
    ∃ t', t.load_frame vs = .ok t' ∧
      t.loadAux vs = .ok (t', vs.drop t.channelCount) ∧
      t'.flattenValues = vs.take t.channelCount ∧
      t'.eraseValues = t.eraseValues := by
  obtain ⟨t', h1, h2, h3⟩ := t.loadAux_ok vs h
  refine ⟨t', ?_, h1, h2, h3⟩
  rw [BVHNode.load_frame, h1]
  rfl

/-- Witness for C4 on the concrete three-channel skeleton and a
four-value frame. -/
theorem load_frame_dfs_assignment_witness :
    sampleRoot.channelCount ≤ ([10, 20, 30, 40] : List ℝ).length ∧
    (∃ t', sampleRoot.load_frame [10, 20, 30, 40] = .ok t' ∧
      sampleRoot.loadAux [10, 20, 30, 40] =
        .ok (t', ([10, 20, 30, 40] : List ℝ).drop sampleRoot.channelCount) ∧
      t'.flattenValues = ([10, 20, 30, 40] : List ℝ).take sampleRoot.channelCount ∧
      t'.eraseValues = sampleRoot.eraseValues) :=
  ⟨by decide, load_frame_dfs_assignment sampleRoot [10, 20, 30, 40] (by decide)⟩

/-- C6: for every tree and every input holding fewer values than the
tree's total channel count, `load_frame` raises the underflow error
(Python: `pop(0)` on the exhausted private copy raises `IndexError`). -/
theorem load_frame_underflow_claim (t : BVHNode) (vs : List ℝ)
    (h : vs.length < t.channelCount) :
    t.load_frame vs = .error .underflow := by
  rw [BVHNode.load_frame, t.loadAux_underflow vs h]
  rfl

/-- Witness for C6: two values for a three-channel skeleton. -/
theorem load_frame_underflow_witness :
    ([5, 10] : List ℝ).length < sampleRoot.channelCount ∧
    sampleRoot.load_frame [5, 10] = .error .underflow :=
  ⟨by decide, load_frame_underflow_claim sampleRoot [5, 10] (by decide)⟩

/-- C10: for every tree and every input holding strictly more values than
the tree's total channel count, `load_frame` succeeds and produces exactly
the tree obtained by loading only the prefix of length `channelCount`;
the excess trailing values are silently ignored. -/
theorem load_frame_excess (t : BVHNode) (vs : List ℝ)
    (h : t.channelCount < vs.length) :
    ∃ t', t.load_frame vs = .ok t' ∧
      t.load_frame (vs.take t.channelCount) = .ok t' := by
  have hle : t.channelCount ≤ (vs.take t.channelCount).length := by
    rw [List.length_take]
    omega
  obtain ⟨t', h1, _, _⟩ := t.loadAux_ok (vs.take t.channelCount) hle
  refine ⟨t', ?_, ?_⟩
  · rw [BVHNode.load_frame]
    conv_lhs => rw [(List.take_append_drop t.channelCount vs).symm]
    rw [t.loadAux_append (vs.take t.channelCount) (vs.drop t.channelCount) hle, h1]
    rfl
  · rw [BVHNode.load_frame, h1]
    rfl

/-- Witness for C10: four values for a three-channel skeleton. -/
theorem load_frame_excess_witness :
    sampleRoot.channelCount < ([10, 20, 30, 40] : List ℝ).length ∧
    (∃ t', sampleRoot.load_frame [10, 20, 30, 40] = .ok t' ∧
      sampleRoot.load_frame (([10, 20, 30, 40] : List ℝ).take sampleRoot.channelCount) = .ok t') :=
  ⟨by decide, load_frame_excess sampleRoot [10, 20, 30, 40] (by decide)⟩

/-- C5: `load_frame` never mutates the caller's array — after any call the
caller's array object holds exactly the values it held before, the
mutation having happened on the private copy — and therefore loading the
same array a second time succeeds again and assigns the tree identical
channel values. -/
theorem load_frame_input_unmodified (t : BVHNode) (vs : List ℝ) :
    (t.load_frame_call vs).2 = vs ∧
    ∀ t₁, (t.load_frame_call vs).1 = .ok t₁ →
      ∃ t₂, (t₁.load_frame_call vs).1 = .ok t₂ ∧ (t₁.load_frame_call vs).2 = vs ∧
        t₂.flattenValues = t₁.flattenValues := by
  refine ⟨rfl, ?_⟩
  intro t₁ h
  have h' : (t.loadAux vs).map Prod.fst = .ok t₁ := h
  have hle : t.channelCount ≤ vs.length := by
    by_contra hlt
    push_neg at hlt
    rw [t.loadAux_underflow vs hlt] at h'
    simp at h'
  obtain ⟨t', hrun, hflat, herase⟩ := t.loadAux_ok vs hle
  rw [hrun] at h'
  simp only [map_ok, Except.ok.injEq] at h'
  subst h'
  have hcount : t'.channelCount = t.channelCount := by
    rw [← t'.channelCount_erase, herase, t.channelCount_erase]
  have hle₁ : t'.channelCount ≤ vs.length := by omega
  obtain ⟨t₂, hrun2, hflat2, _⟩ := t'.loadAux_ok vs hle₁
  refine ⟨t₂, ?_, rfl, ?_⟩
  · show (t'.loadAux vs).map Prod.fst = .ok t₂
    rw [hrun2]
    rfl
  · rw [hflat2, hflat, hcount]

/-- Witness for C5: the three-channel skeleton loaded twice from the same
three-value array. -/
theorem load_frame_input_unmodified_witness :
    (sampleRoot.load_frame_call [1, 2, 3]).2 = [1, 2, 3] ∧
    (∃ t₂, (sampleRootLoaded.load_frame_call [1, 2, 3]).1 = .ok t₂ ∧
      (sampleRootLoaded.load_frame_call [1, 2, 3]).2 = [1, 2, 3] ∧
      t₂.flattenValues = sampleRootLoaded.flattenValues) :=
  ⟨(load_frame_input_unmodified sampleRoot [1, 2, 3]).1,
   (load_frame_input_unmodified sampleRoot [1, 2, 3]).2 sampleRootLoaded rfl⟩

/-- C2: for each of the six recognized channel kinds, `matrix()` succeeds
(no error case) and returns exactly the homogeneous 4x4 matrix of the
spec's table — translation by the value along the X, Y or Z axis, or the
right-handed rotation by the value in degrees (converted to radians)
about the X, Y or Z axis — as a pure function of the kind and the current
value. -/
theorem channel_matrix_table (v : ℝ) :
    (BVHChannel.mk "Xposition" v).matrix = .ok (specTranslateX v) ∧
    (BVHChannel.mk "Yposition" v).matrix = .ok (specTranslateY v) ∧
    (BVHChannel.mk "Zposition" v).matrix = .ok (specTranslateZ v) ∧
    (BVHChannel.mk "Xrotation" v).matrix = .ok (specRotateX v) ∧
    (BVHChannel.mk "Yrotation" v).matrix = .ok (specRotateY v) ∧
    (BVHChannel.mk "Zrotation" v).matrix = .ok (specRotateZ v) :=
  ⟨rfl, rfl, rfl, rfl, rfl, rfl⟩

theorem channelProduct_eq (acc : Mat4) (cs : List BVHChannel) :
    channelProduct acc cs = (cs.mapM BVHChannel.matrix).map (fun ms => acc * ms.prod) := by
  induction cs generalizing acc with
  | nil =>
    rw [channelProduct, List.mapM_nil]
    show Except.ok acc = Except.ok (acc * List.prod [])
    rw [List.prod_nil, mul_one]
  | cons c cs ih =>
    rw [channelProduct, List.mapM_cons]
    cases hm : c.matrix with
    | error e => simp [hm]
    | ok m =>
      simp only [hm, ok_bind, ih, List.prod_cons]
      cases hms : cs.mapM BVHChannel.matrix with
      | error e => rfl
      | ok ms => simp [mul_assoc]

theorem applyChildrenAux_eq (cs : List BVHNode) (p : Mat4) :
    applyChildrenAux cs p = cs.mapM (fun c => c.apply_transformation p) := by
  induction cs with
  | nil => rfl
  | cons c cs ih =>
    rw [applyChildrenAux, List.mapM_cons]
    cases hc : c.apply_transformation p with
    | error e => rfl
    | ok c' =>
      simp only [ok_bind, ih]
      cases hcs : cs.mapM (fun c => c.apply_transformation p) with
      | error e => rfl
      | ok cs' => rfl

/-- C1: whenever `apply_transformation(parent_transform)` succeeds on a
node it sets `local_transform` to the left-to-right product of the node's
channel matrices in declared order (so the identity when the node has no
channels, as the empty product is `1`), sets `world_coordinates` to the
first 3 rows of `(parent_transform * local_transform) * [offset, 1]^T`,
and recurses into every child in order with
`parent_transform * local_transform` as that child's parent transform. -/
theorem apply_transformation_spec (t t' : BVHNode) (p : Mat4)
    (h : t.apply_transformation p = .ok t') :
    (∃ ms, t.channels.mapM BVHChannel.matrix = .ok ms ∧ t'.localTrans = ms.prod) ∧
    t'.coordinates =
      (fun i : Fin 3 => (p * t'.localTrans).mulVec (homog t.offsets) i.castSucc) ∧
    t.children.mapM (fun c => c.apply_transformation (p * t'.localTrans)) = .ok t'.children := by
  obtain ⟨k, n, o, chs, children, w, co, lt⟩ := t
  rw [BVHNode.apply_transformation] at h
  cases hcp : channelProduct 1 chs with
  | error e =>
    rw [hcp] at h
    simp at h
  | ok m =>
    rw [hcp] at h
    simp only [ok_bind] at h
    cases hac : applyChildrenAux children (p * m) with
    | error e =>
      rw [hac] at h
      simp at h
    | ok children' =>
      rw [hac] at h
      simp only [ok_bind, Except.ok.injEq] at h
      subst h
      rw [channelProduct_eq] at hcp
      refine ⟨?_, rfl, ?_⟩
      · cases hmm : chs.mapM BVHChannel.matrix with
        | error e =>
          rw [hmm] at hcp
          simp at hcp
        | ok ms =>
          rw [hmm] at hcp
          simp only [map_ok, Except.ok.injEq] at hcp
          exact ⟨ms, hmm, by simp [← hcp, one_mul]⟩
      · rw [← applyChildrenAux_eq]
        simpa using hac

/-- A childless, channelless end-effector node for the C1 witness. -/
def sampleLeafPlain : BVHNode := .mk "End" "end" ![1, 2, 3] [] [] 1 ![0, 0, 0] 1

/-- `sampleLeafPlain` after `apply_transformation(identity)`: the local
transform is the empty product `1` and the world coordinates are the
offset itself. -/
def sampleLeafApplied : BVHNode := .mk "End" "end" ![1, 2, 3] [] [] 1 ![1, 2, 3] 1

theorem sampleLeaf_apply_eval :
    sampleLeafPlain.apply_transformation 1 = .ok sampleLeafApplied := by
  have hco : (fun i : Fin 3 => ((1 : Mat4) * 1).mulVec (homog ![1, 2, 3]) i.castSucc) =
      ![(1 : ℝ), 2, 3] := by
    funext i
    rw [one_mul, Matrix.one_mulVec]
    fin_cases i <;> rfl
  rw [sampleLeafPlain, BVHNode.apply_transformation]
  show Except.ok _ = _
  rw [sampleLeafApplied, hco]

/-- Witness for C1 on a concrete channelless leaf with offset (1, 2, 3)
and identity parent transform. -/
theorem apply_transformation_spec_witness :
    sampleLeafPlain.apply_transformation 1 = .ok sampleLeafApplied ∧
    (∃ ms, sampleLeafPlain.channels.mapM BVHChannel.matrix = .ok ms ∧
      sampleLeafApplied.localTrans = ms.prod) ∧
    sampleLeafApplied.coordinates =
      (fun i : Fin 3 =>
        ((1 : Mat4) * sampleLeafApplied.localTrans).mulVec (homog sampleLeafPlain.offsets) i.castSucc) ∧
    sampleLeafPlain.children.mapM
        (fun c => c.apply_transformation ((1 : Mat4) * sampleLeafApplied.localTrans)) =
      .ok sampleLeafApplied.children :=
  ⟨sampleLeaf_apply_eval,
   apply_transformation_spec sampleLeafPlain sampleLeafApplied 1 sampleLeaf_apply_eval⟩

theorem distanceChildren_eq (as : List BVHNode) (bs : List BVHNode) (acc : ℝ) :
    distanceChildren acc as bs =
      ((as.zip bs).mapM (fun pr : BVHNode × BVHNode => pr.1.distance pr.2)).map (fun ds => acc + ds.sum) := by
  induction as generalizing bs acc with
  | nil =>
    simp only [distanceChildren, List.zip_nil_left, List.mapM_nil]
    show Except.ok acc = Except.ok (acc + List.sum [])
    rw [List.sum_nil, add_zero]
  | cons a as ih =>
    cases bs with
    | nil =>
      simp only [distanceChildren, List.zip_nil_right, List.mapM_nil]
      show Except.ok acc = Except.ok (acc + List.sum [])
      rw [List.sum_nil, add_zero]
    | cons b bs =>
      simp only [distanceChildren, List.zip_cons_cons, List.mapM_cons]
      cases hd : a.distance b with
      | error e => rfl
      | ok d =>
        simp only [ok_bind, ih]
        cases hds : (as.zip bs).mapM (fun pr : BVHNode × BVHNode => pr.1.distance pr.2) with
        | error e => rfl
        | ok ds =>
          simp only [map_ok, ok_bind]
          show Except.ok (acc + d + ds.sum) = Except.ok (acc + (d :: ds).sum)
          rw [List.sum_cons, add_assoc]

/-- C3: on two nodes with equal names and equal weights, `distance`
returns the Euclidean norm of the difference of their world coordinates
times the weight, plus the sum of the recursive `distance` over
corresponding children pairs taken by positional `zip` (and propagates
whatever error a recursive call raises). -/
theorem distance_spec (a b : BVHNode) (hn : a.name = b.name) (hw : a.weight = b.weight) :
    a.distance b =
      ((a.children.zip b.children).mapM (fun pr : BVHNode × BVHNode => pr.1.distance pr.2)).map
        (fun ds => norm3 (fun i => a.coordinates i - b.coordinates i) * a.weight + ds.sum) := by
  obtain ⟨ka, na, oa, chsa, childrena, wa, coa, lta⟩ := a
  obtain ⟨kb, nb, ob, chsb, childrenb, wb, cob, ltb⟩ := b
  simp only [BVHNode.name_mk, BVHNode.weight_mk] at hn hw
  rw [BVHNode.distance, if_pos (⟨hn, hw⟩ : na = nb ∧ wa = wb)]
  simp only [BVHNode.children_mk, BVHNode.coordinates_mk, BVHNode.weight_mk]
  exact distanceChildren_eq childrena childrenb _

/-- Witness for C3: two childless nodes of equal name and weight with
distinct world coordinates. -/
theorem distance_spec_witness :
    sampleLeafApplied.name = sampleLeafPlain.name ∧
    sampleLeafApplied.weight = sampleLeafPlain.weight ∧
    sampleLeafApplied.distance sampleLeafPlain =
      ((sampleLeafApplied.children.zip sampleLeafPlain.children).mapM
          (fun pr : BVHNode × BVHNode => pr.1.distance pr.2)).map
        (fun ds =>
          norm3 (fun i => sampleLeafApplied.coordinates i - sampleLeafPlain.coordinates i) *
            sampleLeafApplied.weight + ds.sum) :=
  ⟨rfl, rfl, distance_spec sampleLeafApplied sampleLeafPlain rfl rfl⟩

/-- C7: `distance` on two nodes whose names differ or whose weights
differ (in particular: equal names but different weights) raises the
mismatch error — the `assert` of bvh_helper.py:127 fails. -/
theorem distance_mismatch (a b : BVHNode)
    (h : a.name ≠ b.name ∨ a.weight ≠ b.weight) :
    a.distance b = .error .mismatch := by
  obtain ⟨ka, na, oa, chsa, childrena, wa, coa, lta⟩ := a
  obtain ⟨kb, nb, ob, chsb, childrenb, wb, cob, ltb⟩ := b
  simp only [BVHNode.name_mk, BVHNode.weight_mk] at h
  rw [BVHNode.distance, if_neg]
  intro hc
  rcases h with h | h
  · exact h hc.1
  · exact h hc.2

/-- Witness for C7: equal names, weights 1 and 2. -/
theorem distance_mismatch_witness :
    ((BVHNode.mk "ROOT" "n" ![0, 0, 0] [] [] 1 ![0, 0, 0] 1).name =
        (BVHNode.mk "ROOT" "n" ![0, 0, 0] [] [] 2 ![0, 0, 0] 1).name ∧
      (BVHNode.mk "ROOT" "n" ![0, 0, 0] [] [] 1 ![0, 0, 0] 1).weight ≠
        (BVHNode.mk "ROOT" "n" ![0, 0, 0] [] [] 2 ![0, 0, 0] 1).weight) ∧
    (BVHNode.mk "ROOT" "n" ![0, 0, 0] [] [] 1 ![0, 0, 0] 1).distance
        (BVHNode.mk "ROOT" "n" ![0, 0, 0] [] [] 2 ![0, 0, 0] 1) = .error .mismatch :=
  ⟨⟨rfl, by norm_num⟩,
   distance_mismatch _ _ (Or.inr (by norm_num))⟩

mutual
theorem BVHNode.distance_symm : ∀ (a b : BVHNode), a.distance b = b.distance a
  | .mk ka na oa chsa childrena wa coa lta, .mk kb nb ob chsb childrenb wb cob ltb => by
    rw [BVHNode.distance, BVHNode.distance]
    by_cases h : na = nb ∧ wa = wb
    · obtain ⟨hn, hw⟩ := h
      subst hn
      subst hw
      rw [if_pos (⟨rfl, rfl⟩ : na = na ∧ wa = wa), if_pos (⟨rfl, rfl⟩ : na = na ∧ wa = wa)]
      have hnorm : norm3 (fun i => coa i - cob i) = norm3 (fun i => cob i - coa i) := by
        rw [norm3, norm3]
        congr 1
        ring
      rw [hnorm]
      exact distanceChildren_symm childrena childrenb _
    · rw [if_neg h, if_neg (fun hc => h ⟨hc.1.symm, hc.2.symm⟩)]

theorem distanceChildren_symm : ∀ (as bs : List BVHNode) (acc : ℝ),
    distanceChildren acc as bs = distanceChildren acc bs as
  | [], bs, acc => by cases bs <;> rfl
  | a :: as, [], acc => rfl
  | a :: as, b :: bs, acc => by
    simp only [distanceChildren]
    rw [a.distance_symm b]
    cases b.distance a with
    | error e => rfl
    | ok d => exact distanceChildren_symm as bs (acc + d)
end

theorem channelProduct_error_of (cs : List BVHChannel) (acc : Mat4) (s : String)
    (h : firstBadChannel cs = some s) :
    channelProduct acc cs = .error (.unknownChannel s) := by
  induction cs generalizing acc with
  | nil => simp [firstBadChannel] at h
  | cons c cs ih =>
    rw [firstBadChannel] at h
    rw [channelProduct, BVHChannel.matrix]
    cases hm : ChannelTransformMatrixMap c.name with
    | none =>
      rw [hm] at h
      simp only [Option.some.injEq] at h
      subst h
      rfl
    | some f =>
      rw [hm] at h
      simp only [ok_bind]
      exact ih _ h

theorem channelProduct_ok_of (cs : List BVHChannel) (acc : Mat4)
    (h : firstBadChannel cs = none) :
    ∃ m, channelProduct acc cs = .ok m := by
  induction cs generalizing acc with
  | nil => exact ⟨acc, rfl⟩
  | cons c cs ih =>
    rw [firstBadChannel] at h
    rw [channelProduct, BVHChannel.matrix]
    cases hm : ChannelTransformMatrixMap c.name with
    | none =>
      rw [hm] at h
      simp at h
    | some f =>
      rw [hm] at h
      simp only [ok_bind]
      exact ih _ h

mutual
theorem BVHNode.apply_ok_of_firstBad_none : ∀ (t : BVHNode) (p : Mat4),
    t.firstBad = none → ∃ t', t.apply_transformation p = .ok t'
  | .mk k n o chs children w co lt, p => by
    intro h
    rw [BVHNode.firstBad] at h
    rw [BVHNode.apply_transformation]
    cases hfc : firstBadChannel chs with
    | some s =>
      rw [hfc] at h
      simp at h
    | none =>
      rw [hfc] at h
      obtain ⟨m, hm⟩ := channelProduct_ok_of chs 1 hfc
      rw [hm]
      simp only [ok_bind]
      obtain ⟨children', hc⟩ := applyChildrenAux_ok_of_firstBadList_none children (p * m) h
      rw [hc]
      exact ⟨_, rfl⟩

theorem applyChildrenAux_ok_of_firstBadList_none : ∀ (cs : List BVHNode) (p : Mat4),
    firstBadList cs = none → ∃ cs', applyChildrenAux cs p = .ok cs'
  | [], p => fun _ => ⟨[], rfl⟩
  | c :: cs, p => by
    intro h
    rw [firstBadList] at h
    rw [applyChildrenAux]
    cases hfb : c.firstBad with
    | some s =>
      rw [hfb] at h
      simp at h
    | none =>
      rw [hfb] at h
      obtain ⟨c', hc⟩ := c.apply_ok_of_firstBad_none p hfb
      rw [hc]
      simp only [ok_bind]
      obtain ⟨cs', hcs⟩ := applyChildrenAux_ok_of_firstBadList_none cs p h
      rw [hcs]
      exact ⟨_, rfl⟩
end

mutual
theorem BVHNode.apply_error_of_firstBad_some : ∀ (t : BVHNode) (p : Mat4) (s : String),
    t.firstBad = some s → t.apply_transformation p = .error (.unknownChannel s)
  | .mk k n o chs children w co lt, p, s => by
    intro h
    rw [BVHNode.firstBad] at h
    rw [BVHNode.apply_transformation]
    cases hfc : firstBadChannel chs with
    | some s' =>
      rw [hfc] at h
      simp only [Option.some.injEq] at h
      subst h
      rw [channelProduct_error_of chs 1 s' hfc]
      rfl
    | none =>
      rw [hfc] at h
      obtain ⟨m, hm⟩ := channelProduct_ok_of chs 1 hfc
      rw [hm]
      simp only [ok_bind]
      rw [applyChildrenAux_error_of_firstBadList_some children (p * m) s h]
      rfl

theorem applyChildrenAux_error_of_firstBadList_some : ∀ (cs : List BVHNode) (p : Mat4) (s : String),
    firstBadList cs = some s → applyChildrenAux cs p = .error (.unknownChannel s)
  | [], p, s => by
    intro h
    rw [firstBadList] at h
    simp at h
  | c :: cs, p, s => by
    intro h
    rw [firstBadList] at h
    rw [applyChildrenAux]
    cases hfb : c.firstBad with
    | some s' =>
      rw [hfb] at h
      simp only [Option.some.injEq] at h
      subst h
      rw [c.apply_error_of_firstBad_some p s' hfb]
      rfl
    | none =>
      rw [hfb] at h
      obtain ⟨c', hc⟩ := c.apply_ok_of_firstBad_none p hfb
      rw [hc]
      simp only [ok_bind]
      rw [applyChildrenAux_error_of_firstBadList_some cs p s h]
      rfl
end

theorem firstBadChannel_erase (cs : List BVHChannel) :
    firstBadChannel (cs.map fun c => { c with value := 0 }) = firstBadChannel cs := by
  induction cs with
  | nil => rfl
  | cons c cs ih =>
    rw [List.map_cons, firstBadChannel, firstBadChannel]
    cases hm : ChannelTransformMatrixMap c.name with
    | some f => exact ih
    | none => rfl

mutual
theorem BVHNode.firstBad_erase : ∀ t : BVHNode, t.eraseValues.firstBad = t.firstBad
  | .mk k n o chs children w co lt => by
    rw [BVHNode.eraseValues, BVHNode.firstBad, BVHNode.firstBad, firstBadChannel_erase]
    cases hfc : firstBadChannel chs with
    | some s => rfl
    | none => exact firstBadList_erase children

theorem firstBadList_erase : ∀ cs : List BVHNode,
    firstBadList (eraseValuesList cs) = firstBadList cs
  | [] => rfl
  | c :: cs => by
    rw [eraseValuesList, firstBadList, firstBadList, c.firstBad_erase]
    cases hfb : c.firstBad with
    | some s => rfl
    | none => exact firstBadList_erase cs
end

/-- C8: `frame_distance` is symmetric — for every reference tree and
frames `a`, `b` that each hold at least the tree's total channel count of
values, `frame_distance(tree, a, b) = frame_distance(tree, b, a)` (the
two sides either both succeed with the same value, thanks to the symmetry
of the Euclidean norm and of the name/weight checks, or both raise the
same unrecognized-channel error). -/
theorem frame_distance_symm (t : BVHNode) (fa fb : List ℝ)
    (ha : t.channelCount ≤ fa.length) (hb : t.channelCount ≤ fb.length) :
    t.frame_distance fa fb = t.frame_distance fb fa := by
  obtain ⟨na, hla, _, hea⟩ := t.loadAux_ok fa ha
  obtain ⟨nb, hlb, _, heb⟩ := t.loadAux_ok fb hb
  have hlfa : t.load_frame fa = .ok na := by
    rw [BVHNode.load_frame, hla]
    rfl
  have hlfb : t.load_frame fb = .ok nb := by
    rw [BVHNode.load_frame, hlb]
    rfl
  have hba : na.firstBad = t.firstBad := by
    rw [← na.firstBad_erase, hea, t.firstBad_erase]
  have hbb : nb.firstBad = t.firstBad := by
    rw [← nb.firstBad_erase, heb, t.firstBad_erase]
  rw [BVHNode.frame_distance, BVHNode.frame_distance, hlfa, hlfb]
  simp only [ok_bind]
  cases hfb' : t.firstBad with
  | some s =>
    rw [na.apply_error_of_firstBad_some 1 s (by rw [hba, hfb']),
        nb.apply_error_of_firstBad_some 1 s (by rw [hbb, hfb'])]
  | none =>
    obtain ⟨na', hna'⟩ := na.apply_ok_of_firstBad_none 1 (by rw [hba, hfb'])
    obtain ⟨nb', hnb'⟩ := nb.apply_ok_of_firstBad_none 1 (by rw [hbb, hfb'])
    rw [hna', hnb']
    simp only [ok_bind]
    exact na'.distance_symm nb'

/-- Witness for C8 on the three-channel skeleton with two three-value
frames. -/
theorem frame_distance_symm_witness :
    sampleRoot.channelCount ≤ ([1, 2, 3] : List ℝ).length ∧
    sampleRoot.channelCount ≤ ([4, 5, 6] : List ℝ).length ∧
    sampleRoot.frame_distance [1, 2, 3] [4, 5, 6] =
      sampleRoot.frame_distance [4, 5, 6] [1, 2, 3] :=
  ⟨by decide, by decide,
   frame_distance_symm sampleRoot [1, 2, 3] [4, 5, 6] (by decide) (by decide)⟩

/-- C9: a `frame_distance` call leaves the reference tree exactly as it
was — the loads and forward-kinematics passes act on the two
`copy.deepcopy` trees, so the receiver's state after the call (second
component of `frame_distance_call`) is the tree that was passed in, with
channel values, local transforms, world coordinates and structure all
unchanged, while the first component is the usual `frame_distance`
result. -/
theorem frame_distance_no_mutation (t : BVHNode) (fa fb : List ℝ) :
    (t.frame_distance_call fa fb).2 = t ∧
    (t.frame_distance_call fa fb).1 = t.frame_distance fa fb :=
  ⟨rfl, rfl⟩
